import Mathlib

/-!
Shallow embedding of the version-control application (package `VCA`):
the version compatibility graph (`models.GraphAsyncVersion` as realised by
`models.WebVersion`), endpoint records (`models.WebAPI`), application
releases (`models.AppVersion`), and the request gate
(`mixins.VersionControlMixin`).

Conventions of the embedding:
* Database rows become entries of plain lists inside a `World`; a row is
  addressed by its index.
* The evaluation clock `now` is stored in the `Graph`, and a timestamp is
  an `Int`, so `now() > deprecated_at` becomes an `Int` comparison.
* The source's recursive graph walks have no cycle guard, so they are
  embedded with an explicit fuel argument; `Res.fuelOut` marks a
  computation that did not finish within the given recursion budget.
* Accessing a Python attribute that does not exist raises
  `AttributeError`; this is embedded as `Res.attrErr` carrying the
  attribute name.  Adding `None` to a string raises `TypeError`,
  embedded as `Res.typeErr`.
-/

/-- Outcome of evaluating a piece of the Python source: a value, an
`AttributeError` naming the missing attribute, a `TypeError`, or an
exhausted recursion budget. -/
inductive Res (α : Type) where
  | val : α → Res α
  | attrErr : String → Res α
  | typeErr : Res α
  | fuelOut : Res α
deriving DecidableEq, Repr

/-- Map over the value of a result, keeping errors. -/
def Res.map {α β : Type} (f : α → β) : Res α → Res β
  | .val a => .val (f a)
  | .attrErr s => .attrErr s
  | .typeErr => .typeErr
  | .fuelOut => .fuelOut

/-- Negation of a boolean result (Python `not`), keeping errors. -/
def Res.neg : Res Bool → Res Bool
  | .val b => .val (!b)
  | .attrErr s => .attrErr s
  | .typeErr => .typeErr
  | .fuelOut => .fuelOut

/-- Short-circuiting disjunctive scan over a list (the shape of the
`for ... : if cond: return True ... return False` loops in the source):
the first `True` wins, errors abort the scan, otherwise `False`. -/
def anyRes {α : Type} (p : α → Res Bool) : List α → Res Bool
  | [] => .val false
  | x :: xs =>
    match p x with
    | .val true => .val true
    | .val false => anyRes p xs
    | .attrErr s => .attrErr s
    | .typeErr => .typeErr
    | .fuelOut => .fuelOut

/-- One row of `models.WebVersion` (a `GraphAsyncVersion` together with
the web-specific columns the claims need).  `prev` and `incompat` are the
`previous_versions` and `incompatible_previous_versions` edge lists,
holding indices of other rows. -/
structure WebVersion where
  deprecated_at : Option Int := none
  prev : List Nat := []
  incompat : List Nat := []
  version_name : String := ("")
  api_prefix : Option String := none
deriving DecidableEq, Repr, Inhabited

/-- The version graph: the evaluation clock together with the
`WebVersion` rows. -/
structure Graph where
  now : Int
  nodes : List WebVersion
deriving DecidableEq, Repr

/-- Row lookup by index (out-of-range indices give the default row;
worlds used in the theorems keep all indices in range). -/
def Graph.node (g : Graph) (i : Nat) : WebVersion :=
  g.nodes.getD i default

/-- `DepreciableObjectMixin._is_deprecated_time`:
`deprecated_at is not None and now() > deprecated_at`. -/
def is_deprecated_time (now : Int) (deprecated_at : Option Int) : Bool :=
  match deprecated_at with
  | none => false
  | some t => decide (now > t)

mutual

/-- `GraphAsyncVersion.coming_soon`: some previous version is itself
coming soon, or some incompatible previous version is not deprecated. -/
def GraphAsyncVersion.coming_soon (g : Graph) : Nat → Nat → Res Bool
  | 0, _ => .fuelOut
  | fuel + 1, i =>
    match anyRes (fun j => GraphAsyncVersion.coming_soon g fuel j) ((g.node i).prev) with
    | .val false =>
      anyRes (fun j => Res.neg (GraphAsyncVersion.deprecated g fuel j)) ((g.node i).incompat)
    | r => r

/-- `GraphAsyncVersion.deprecated`:
`super().deprecated() and not self.coming_soon()`; the conjunction
short-circuits, so `coming_soon` only runs when the timestamp has
passed. -/
def GraphAsyncVersion.deprecated (g : Graph) : Nat → Nat → Res Bool
  | 0, _ => .fuelOut
  | fuel + 1, i =>
    if is_deprecated_time g.now ((g.node i).deprecated_at) then
      Res.neg (GraphAsyncVersion.coming_soon g fuel i)
    else
      .val false

end

/-- `GraphAsyncVersion.available`: returns `False` when deprecated or
coming soon; otherwise the loop over `incompatible_previous_versions`
immediately evaluates `version.deprecated_show` — an attribute no class
in the source defines (the mixin defines `show_deprecated`) — so the
first loop iteration raises `AttributeError`. -/
def GraphAsyncVersion.available (g : Graph) : Nat → Nat → Res Bool
  | 0, _ => .fuelOut
  | fuel + 1, i =>
    match GraphAsyncVersion.deprecated g fuel i with
    | .val true => .val false
    | .val false =>
      match GraphAsyncVersion.coming_soon g fuel i with
      | .val true => .val false
      | .val false =>
        match (g.node i).incompat with
        | [] => .val true
        | _ :: _ => .attrErr ("deprecated_show")
      | .attrErr s => .attrErr s
      | .typeErr => .typeErr
      | .fuelOut => .fuelOut
    | .attrErr s => .attrErr s
    | .typeErr => .typeErr
    | .fuelOut => .fuelOut

/-- `GraphAsyncVersion.all_previous_version`, defunctionalised: the
`inl i` states evaluate the method on node `i`, the `inr js` states run
the `for version in ...` loop over the remaining edge list `js`.  Every
step consumes fuel; the source has no cycle guard, so on a cyclic graph
no amount of fuel completes the walk. -/
def GraphAsyncVersion.apvAux (g : Graph) : Nat → Nat ⊕ List Nat → Res (List Nat)
  | 0, _ => .fuelOut
  | fuel + 1, .inl i => GraphAsyncVersion.apvAux g fuel (.inr ((g.node i).prev))
  | _ + 1, .inr [] => .val []
  | fuel + 1, .inr (j :: rest) =>
    match GraphAsyncVersion.apvAux g fuel (.inl j) with
    | .val l =>
      Res.map (fun r => j :: (l ++ r)) (GraphAsyncVersion.apvAux g fuel (.inr rest))
    | .attrErr s => .attrErr s
    | .typeErr => .typeErr
    | .fuelOut => .fuelOut

/-- `GraphAsyncVersion.all_previous_version`: depth-first collection of
all transitive `previous_versions`. -/
def GraphAsyncVersion.all_previous_version (g : Graph) (fuel : Nat) (i : Nat) : Res (List Nat) :=
  GraphAsyncVersion.apvAux g fuel (.inl i)

/-- `models._append_slash`: append a slash unless the string already
ends with one. -/
def _append_slash (url : String) : String :=
  url ++ (if url.endsWith ("/") then ("") else ("/"))

/-- Prefix match of the regex `\d+\.0\.0` (`models.main_version`,
applied with `re.match`).  The greedy digit run is maximal munch: taking
fewer digits leaves a digit where `.` is expected, so this is exactly
the regex's prefix-matching behaviour. -/
def matchMainL (l : List Char) : Bool :=
  let ds := l.takeWhile Char.isDigit
  !ds.isEmpty && List.isPrefixOf ['.', '0', '.', '0'] (l.drop ds.length)

/-- Prefix match of the regex `\d+\.\d+\.0` (`models.sub_version`). -/
def matchSubL (l : List Char) : Bool :=
  let d1 := l.takeWhile Char.isDigit
  match l.drop d1.length with
  | '.' :: r2 =>
    let d2 := r2.takeWhile Char.isDigit
    !d1.isEmpty && !d2.isEmpty && List.isPrefixOf ['.', '0'] (r2.drop d2.length)
  | _ => false

/-- Prefix match of the regex `\d+\.\d+\.\d+` (`models.tiny_version`). -/
def matchTinyL (l : List Char) : Bool :=
  let d1 := l.takeWhile Char.isDigit
  match l.drop d1.length with
  | '.' :: r2 =>
    let d2 := r2.takeWhile Char.isDigit
    match r2.drop d2.length with
    | '.' :: r4 => !d1.isEmpty && !d2.isEmpty && !(r4.takeWhile Char.isDigit).isEmpty
    | _ => false
  | _ => false

/-- Python `s.partition('.')[0]`: everything before the first dot (the
whole string when there is no dot). -/
def partBeforeDot (l : List Char) : List Char :=
  l.takeWhile (fun c => c != '.')

/-- Python `s.rpartition('.')[-1]`: everything after the last dot (the
whole string when there is no dot). -/
def partAfterLastDot (l : List Char) : List Char :=
  (l.reverse.takeWhile (fun c => c != '.')).reverse

/-- `WebVersion.get_version_uri`: dispatch on the three version-string
regexes; note the sub-version branch keeps what comes after the LAST
dot (`rpartition('.')[-1]`). -/
def WebVersion.get_version_uri (version_name : String) : String :=
  let l := version_name.toList
  if matchMainL l then ("v") ++ String.mk (partBeforeDot l)
  else if matchSubL l then ("v") ++ String.mk (partAfterLastDot l)
  else if matchTinyL l then ("v") ++ version_name
  else ("v") ++ version_name

/-- `WebVersion.get_complete_prefix`: for an API view, `None` when
`api_prefix` is unset, otherwise the slash-joined prefix and version
segment; for a non-API view just the version segment. -/
def WebVersion.get_complete_prefix (g : Graph) (i : Nat) (is_api : Bool) : Option String :=
  if is_api then
    match WebVersion.api_prefix (g.node i) with
    | none => none
    | some p =>
      some (_append_slash p ++ _append_slash (WebVersion.get_version_uri ((g.node i).version_name)))
  else
    some (_append_slash (WebVersion.get_version_uri ((g.node i).version_name)))

/-- One row of `models.WebAPI`.  `web_version` is the index of the owning
`WebVersion` row, `new_compatible_view` the index of the successor
record, if any. -/
structure WebAPI where
  deprecated_at : Option Int := none
  web_version : Nat
  view_url : Option String := none
  absolute_view_url : Option String := none
  is_api : Bool := false
  new_compatible_view : Option Nat := none
deriving DecidableEq, Repr

instance : Inhabited WebAPI := ⟨{ web_version := 0 }⟩

/-- One row of `models.AppVersion`: its own deprecation timestamp and the
indices of the `WebAPI` rows it requires (`web_apis_required`). -/
structure AppVersion where
  deprecated_at : Option Int := none
  web_apis_required : List Nat := []
deriving DecidableEq, Repr, Inhabited

/-- The database contents a gating decision reads: the version graph and
the `WebAPI` and `AppVersion` tables. -/
structure World where
  graph : Graph
  apis : List WebAPI
  apps : List AppVersion := []
deriving DecidableEq, Repr

/-- `WebAPI` row lookup by index. -/
def World.api (w : World) (i : Nat) : WebAPI :=
  w.apis.getD i default

/-- `AppVersion` row lookup by index. -/
def World.app (w : World) (i : Nat) : AppVersion :=
  w.apps.getD i default

/-- In the property `WebAPI.available` the source tests
`not self.deprecated` without calling the method: the test is applied to
the bound-method object itself, and a bound method is always truthy in
Python, so the test is `True` and its negation `False`. -/
def deprecatedBoundMethodTruthy : Bool := true

/-- `WebAPI.coming_soon`: delegates to the owning version. -/
def WebAPI.coming_soon (w : World) (fuel : Nat) (i : Nat) : Res Bool :=
  GraphAsyncVersion.coming_soon w.graph fuel ((w.api i).web_version)

/-- `WebAPI.available` (property):
`not self.deprecated and self.web_version.available() and not self.coming_soon()`.
Because `self.deprecated` is the uncalled bound method, the leading
conjunct is `False` and the chain short-circuits. -/
def WebAPI.available (w : World) (fuel : Nat) (i : Nat) : Res Bool :=
  if deprecatedBoundMethodTruthy then .val false
  else
    match GraphAsyncVersion.available w.graph fuel ((w.api i).web_version) with
    | .val false => .val false
    | .val true => Res.neg (WebAPI.coming_soon w fuel i)
    | .attrErr s => .attrErr s
    | .typeErr => .typeErr
    | .fuelOut => .fuelOut

/-- `WebAPI.url` (property): the absolute URL when set; otherwise the
complete prefix concatenated with `view_url` — when the prefix is `None`
(API view with no `api_prefix`) the Python `None + str` concatenation
raises `TypeError`; otherwise `None`. -/
def WebAPI.url (w : World) (i : Nat) : Res (Option String) :=
  match (w.api i).absolute_view_url with
  | some u => .val (some u)
  | none =>
    match (w.api i).view_url with
    | some vu =>
      match WebVersion.get_complete_prefix w.graph ((w.api i).web_version) ((w.api i).is_api) with
      | some p => .val (some (p ++ vu))
      | none => .typeErr
    | none => .val none

/-- `WebAPI.updates`: the forward `new_compatible_view` chain, collected
recursively with no cycle guard. -/
def WebAPI.updates (w : World) : Nat → Nat → Res (List Nat)
  | 0, _ => .fuelOut
  | fuel + 1, i =>
    match (w.api i).new_compatible_view with
    | none => .val []
    | some j => Res.map (fun l => j :: l) (WebAPI.updates w fuel j)

/-- `WebAPI.available_updates`: only the FIRST successor's owning version
is checked; when it is available the whole unfiltered `updates()` chain
of that successor is appended. -/
def WebAPI.available_updates (w : World) (fuel : Nat) (i : Nat) : Res (List Nat) :=
  match (w.api i).new_compatible_view with
  | none => .val []
  | some j =>
    match GraphAsyncVersion.available w.graph fuel ((w.api j).web_version) with
    | .val true => Res.map (fun l => j :: l) (WebAPI.updates w fuel j)
    | .val false => .val []
    | .attrErr s => .attrErr s
    | .typeErr => .typeErr
    | .fuelOut => .fuelOut

/-- Loop body of `WebAPI.last_available_update`:
`while update.new_compatible_view.available: update = update.new_compatible_view`.
When `new_compatible_view` is `None` the attribute access on `None`
raises `AttributeError`. -/
def WebAPI.lau_loop (w : World) : Nat → Nat → Res (Option Nat)
  | 0, _ => .fuelOut
  | fuel + 1, u =>
    match (w.api u).new_compatible_view with
    | none => .attrErr ("available")
    | some j =>
      match WebAPI.available w fuel j with
      | .val true => WebAPI.lau_loop w fuel j
      | .val false => .val (some u)
      | .attrErr s => .attrErr s
      | .typeErr => .typeErr
      | .fuelOut => .fuelOut

/-- `WebAPI.last_available_update`: `None` unless the record itself is
available, then the while-loop walk. -/
def WebAPI.last_available_update (w : World) (fuel : Nat) (i : Nat) : Res (Option Nat) :=
  match WebAPI.available w fuel i with
  | .val false => .val none
  | .val true => WebAPI.lau_loop w fuel i
  | .attrErr s => .attrErr s
  | .typeErr => .typeErr
  | .fuelOut => .fuelOut

/-- Result of `VersionControlMixin.control_version` as observed by
`dispatch`: `allow` is the `None` return (request proceeds),
`notRegistered` the unregistered branch, and the error constructors
mirror `Res`. -/
inductive GateRes where
  | allow
  | notRegistered
  | redirect : String → GateRes
  | gone
  | tooEarly
  | attrError : String → GateRes
  | fuelExhausted
deriving DecidableEq, Repr

/-- `VersionControlMixin._exists`: whether a `WebAPI` row is registered
for the view code; registration is modelled as the index being in
range. -/
def VersionControlMixin.existsRecord (w : World) (i : Nat) : Bool :=
  decide (i < w.apis.length)

/-- `VersionControlMixin.available`: `False` when unregistered, else the
record's `available` property. -/
def VersionControlMixin.available (w : World) (fuel : Nat) (i : Nat) : Res Bool :=
  if VersionControlMixin.existsRecord w i then WebAPI.available w fuel i
  else .val false

/-- `VersionControlMixin.control_version`: allow when available, the
not-registered branch when no record exists; otherwise the source
evaluates `self.web_api.is_deprecated()` — no class defines an
`is_deprecated` method (the model defines `deprecated`) — so the
attribute lookup raises `AttributeError` before any of the
redirect/gone/too-early branches can run. -/
def VersionControlMixin.control_version (w : World) (fuel : Nat) (i : Nat) : GateRes :=
  match VersionControlMixin.available w fuel i with
  | .val true => .allow
  | .val false =>
    if VersionControlMixin.existsRecord w i then .attrError ("is_deprecated")
    else .notRegistered
  | .attrErr s => .attrError s
  | .typeErr => .attrError ("")
  | .fuelOut => .fuelExhausted

/-- Loop of `AppVersion.supported` over `web_apis_required`:
`if web_api.available: return True` for each row, and after the loop the
method returns `True` unconditionally. -/
def AppVersion.supported_scan (w : World) (fuel : Nat) : List Nat → Res Bool
  | [] => .val true
  | e :: rest =>
    match WebAPI.available w fuel e with
    | .val true => .val true
    | .val false => AppVersion.supported_scan w fuel rest
    | .attrErr s => .attrErr s
    | .typeErr => .typeErr
    | .fuelOut => .fuelOut

/-- `AppVersion.supported`. -/
def AppVersion.supported (w : World) (fuel : Nat) (i : Nat) : Res Bool :=
  AppVersion.supported_scan w fuel ((w.app i).web_apis_required)

/-- `AppVersion.deprecated`: `super().deprecated() or not self.supported()`,
with Python's short-circuiting `or`. -/
def AppVersion.deprecated (w : World) (fuel : Nat) (i : Nat) : Res Bool :=
  if is_deprecated_time w.graph.now ((w.app i).deprecated_at) then .val true
  else Res.neg (AppVersion.supported w fuel i)

/-! Shared consequences of the definitions, used across the development. -/

/-- The `available` property of a `WebAPI` record is `False` for every
record in every world: `not self.deprecated` negates the truthy
bound-method object, so the conjunction short-circuits at once. -/
theorem webAPI_available_false (w : World) (fuel i : Nat) :
    WebAPI.available w fuel i = .val false := rfl

/-- The loop of `AppVersion.supported` can never produce anything but
`True`: no row passes the (constantly false) `available` test, and the
fall-through return is `True`. -/
theorem supported_scan_true (w : World) (fuel : Nat) (l : List Nat) :
    AppVersion.supported_scan w fuel l = .val true := by
  induction l with
  | nil => rfl
  | cons e rest ih =>
    simp [AppVersion.supported_scan, webAPI_available_false, ih]

/-! Concrete worlds used as witnesses and counterexamples. -/

/-- Two versions: row 0 is expired (`deprecated_at` in the past), row 1
is clean but lists row 0 as an incompatible previous version. -/
def g1 : Graph :=
  ⟨0, [⟨some (-1), [], [], ("1.0.0"), none⟩, ⟨none, [], [0], ("2.0.0"), none⟩]⟩

/-- A world with one expired version and one registered endpoint record
bound to it, with no `new_compatible_view`. -/
def w3 : World :=
  ⟨⟨0, [⟨some (-1), [], [], ("1.0.0"), none⟩]⟩,
   [⟨none, 0, none, none, false, none⟩], []⟩

/-- Three versions: row 0 is clean, row 1 is expired but lists row 0 as
incompatible (so row 1 is itself coming soon), row 2 lists row 1 as
incompatible. -/
def g4 : Graph :=
  ⟨0, [⟨none, [], [], ("1.0.0"), none⟩,
       ⟨some (-1), [], [0], ("2.0.0"), none⟩,
       ⟨none, [], [1], ("3.0.0"), none⟩]⟩

/-- A world whose `new_compatible_view` chain and whose
`previous_versions` edges both form the two-cycle 0 → 1 → 0. -/
def wCyc : World :=
  ⟨⟨0, [⟨none, [1], [], ("1.0.0"), none⟩, ⟨none, [0], [], ("2.0.0"), none⟩]⟩,
   [⟨none, 0, none, none, false, some 1⟩, ⟨none, 1, none, none, false, some 0⟩], []⟩

/-- A world with one clean version, one endpoint record bound to it, and
one app release that requires that endpoint. -/
def w9 : World :=
  ⟨⟨0, [⟨none, [], [], ("1.0.0"), none⟩]⟩,
   [⟨none, 0, none, none, false, none⟩],
   [⟨none, [0]⟩]⟩

/-! Claim theorems. -/

/-- C1: the claim says that a node that is neither deprecated nor coming
soon is available exactly when each incompatible predecessor is
explicitly flagged deprecated, unavailable and not coming soon.  In the
code, however, whenever that loop is reached with at least one
incompatible predecessor, the very first iteration reads the undefined
attribute `deprecated_show` and raises `AttributeError`, so `available`
never returns the boolean the claim describes. -/
theorem available_attr_error_on_incompatible (g : Graph) (fuel i : Nat)
    (h1 : GraphAsyncVersion.deprecated g fuel i = .val false)
    (h2 : GraphAsyncVersion.coming_soon g fuel i = .val false)
    (h3 : (g.node i).incompat ≠ []) :
    GraphAsyncVersion.available g (fuel + 1) i = .attrErr ("deprecated_show") := by
  cases hl : (g.node i).incompat with
  | nil => exact absurd hl h3
  | cons a l => simp [GraphAsyncVersion.available, h1, h2, hl]

/-- Witness for C1: in `g1`, node 1 is neither deprecated nor coming
soon, has the expired node 0 as incompatible predecessor, and its
`available()` raises `AttributeError` for `deprecated_show`. -/
theorem available_attr_error_on_incompatible_witness :
    GraphAsyncVersion.deprecated g1 8 1 = .val false ∧
    GraphAsyncVersion.coming_soon g1 8 1 = .val false ∧
    (g1.node 1).incompat ≠ [] ∧
    GraphAsyncVersion.available g1 9 1 = .attrErr ("deprecated_show") :=
  ⟨by decide, by decide, by decide,
   available_attr_error_on_incompatible g1 8 1 (by decide) (by decide) (by decide)⟩

/-- C2: the claim says a registered, non-deprecated, non-coming-soon
endpoint whose version is available is reported available by the gate.
In the code `WebAPI.available` tests `not self.deprecated` on the
uncalled bound method, which is always truthy, so the property is
`False` for every record and the gate never reports an endpoint
available. -/
theorem gate_availability_always_false (w : World) (fuel i : Nat) :
    WebAPI.available w fuel i = .val false ∧
    VersionControlMixin.available w fuel i ≠ .val true := by
  refine ⟨webAPI_available_false w fuel i, ?_⟩
  unfold VersionControlMixin.available
  cases VersionControlMixin.existsRecord w i <;>
    simp [webAPI_available_false]

/-- C3: the claim says that for a registered endpoint bound to an
expired version with no successor, the gate answers "gone".  In the
code, every registered endpoint that reaches `control_version` hits
`self.web_api.is_deprecated()`, a method no class defines, so the gate
raises `AttributeError` instead of returning any response. -/
theorem control_version_attr_error (w : World) (fuel i : Nat)
    (h : VersionControlMixin.existsRecord w i = true) :
    VersionControlMixin.control_version w fuel i = .attrError ("is_deprecated") := by
  simp [VersionControlMixin.control_version, VersionControlMixin.available, h,
    webAPI_available_false]

/-- Witness for C3: the world `w3` (registered endpoint 0 bound to an
expired version, no `new_compatible_view`) makes the gate raise. -/
theorem control_version_attr_error_witness :
    VersionControlMixin.existsRecord w3 0 = true ∧
    VersionControlMixin.control_version w3 10 0 = .attrError ("is_deprecated") :=
  ⟨by decide, control_version_attr_error w3 10 0 (by decide)⟩

/-- In `wCyc` the `new_compatible_view` chain walk of `updates()`
exhausts any recursion budget from either endpoint of the cycle. -/
theorem updates_cyc_aux (fuel : Nat) :
    WebAPI.updates wCyc fuel 0 = .fuelOut ∧ WebAPI.updates wCyc fuel 1 = .fuelOut := by
  induction fuel with
  | zero => exact ⟨rfl, rfl⟩
  | succ f ih =>
    refine ⟨?_, ?_⟩
    · have e : WebAPI.updates wCyc (f + 1) 0 =
          Res.map (fun l => 1 :: l) (WebAPI.updates wCyc f 1) := rfl
      rw [e, ih.2]; rfl
    · have e : WebAPI.updates wCyc (f + 1) 1 =
          Res.map (fun l => 0 :: l) (WebAPI.updates wCyc f 0) := rfl
      rw [e, ih.1]; rfl

/-- In `wCyc` the depth-first `all_previous_version` walk exhausts any
recursion budget from every reachable state of the traversal. -/
theorem apv_cyc_aux (fuel : Nat) :
    GraphAsyncVersion.apvAux wCyc.graph fuel (.inl 0) = .fuelOut ∧
    GraphAsyncVersion.apvAux wCyc.graph fuel (.inl 1) = .fuelOut ∧
    GraphAsyncVersion.apvAux wCyc.graph fuel (.inr [0]) = .fuelOut ∧
    GraphAsyncVersion.apvAux wCyc.graph fuel (.inr [1]) = .fuelOut := by
  induction fuel with
  | zero => exact ⟨rfl, rfl, rfl, rfl⟩
  | succ f ih =>
    refine ⟨?_, ?_, ?_, ?_⟩
    · have e : GraphAsyncVersion.apvAux wCyc.graph (f + 1) (.inl 0) =
          GraphAsyncVersion.apvAux wCyc.graph f (.inr [1]) := rfl
      rw [e]; exact ih.2.2.2
    · have e : GraphAsyncVersion.apvAux wCyc.graph (f + 1) (.inl 1) =
          GraphAsyncVersion.apvAux wCyc.graph f (.inr [0]) := rfl
      rw [e]; exact ih.2.2.1
    · simp only [GraphAsyncVersion.apvAux, ih.1]
    · simp only [GraphAsyncVersion.apvAux, ih.2.1]

/-- C5: the claim says cyclic graphs make the traversals raise
`GraphCycleError`.  No such error exists anywhere in the source: on the
cycle 0 → 1 → 0 both `updates()` and `all_previous_version()` recurse
without bound — modelled here as exhausting every finite recursion
budget — instead of raising. -/
theorem traversal_cycle_never_terminates (fuel : Nat) :
    WebAPI.updates wCyc fuel 0 = .fuelOut ∧
    GraphAsyncVersion.all_previous_version wCyc.graph fuel 0 = .fuelOut := by
  exact ⟨(updates_cyc_aux fuel).1, (apv_cyc_aux fuel).1⟩

/-- C6: amended — `last_available_update` starts with
`if not self.available: return`, and the `available` property is
constantly `False` (C2), so the method returns `None` for every record
in every world; in particular it cannot return the final record of an
A → B → C chain. -/
theorem last_available_update_always_none (w : World) (fuel i : Nat) :
    WebAPI.last_available_update w fuel i = .val none := by
  simp [WebAPI.last_available_update, webAPI_available_false]

/-- C9: amended — `supported()` ends in an unconditional `return True`,
so every app release is supported (with or without required endpoints)
and `deprecated()` reduces to the own-timestamp check alone. -/
theorem app_supported_always_true (w : World) (fuel i : Nat) :
    AppVersion.supported w fuel i = .val true ∧
    AppVersion.deprecated w fuel i =
      .val (is_deprecated_time w.graph.now ((w.app i).deprecated_at)) := by
  refine ⟨supported_scan_true w fuel _, ?_⟩
  unfold AppVersion.deprecated
  cases h : is_deprecated_time w.graph.now ((w.app i).deprecated_at) <;>
    simp [h, AppVersion.supported, supported_scan_true, Res.neg]

/-- C9: counterexample — in `w9` the app release 0 requires the (never
available) endpoint 0 and has no deprecation timestamp; the claim
predicts `deprecated()` is `True` because no required endpoint is
available, but the code returns `False`. -/
theorem app_deprecated_counterexample :
    AppVersion.deprecated w9 10 0 = .val false ∧
    (w9.app 0).web_apis_required = [0] ∧
    WebAPI.available w9 10 0 = .val false ∧
    is_deprecated_time w9.graph.now ((w9.app 0).deprecated_at) = false := by
  exact ⟨by decide, by decide, by decide, by decide⟩

/-- Negating a result yields `True` exactly when the result was the
value `False`. -/
theorem Res.neg_eq_true {r : Res Bool} : Res.neg r = .val true ↔ r = .val false := by
  cases r <;> simp [Res.neg]

/-- Negating a result yields `False` exactly when the result was the
value `True`. -/
theorem Res.neg_eq_false {r : Res Bool} : Res.neg r = .val false ↔ r = .val true := by
  cases r <;> simp [Res.neg]

/-- A scan that returns `True` found a witness in the list. -/
theorem anyRes_val_true {α : Type} (p : α → Res Bool) (l : List α)
    (h : anyRes p l = .val true) : ∃ x ∈ l, p x = .val true := by
  induction l with
  | nil => simp [anyRes] at h
  | cons x xs ih =>
    unfold anyRes at h
    cases hp : p x with
    | val b =>
      cases b
      · rw [hp] at h
        obtain ⟨y, hy, hpy⟩ := ih h
        exact ⟨y, List.mem_cons_of_mem x hy, hpy⟩
      · exact ⟨x, List.mem_cons_self x xs, hp⟩
    | attrErr s => rw [hp] at h; cases h
    | typeErr => rw [hp] at h; cases h
    | fuelOut => rw [hp] at h; cases h

/-- A scan that returns `False` found only `False` values. -/
theorem anyRes_val_false {α : Type} (p : α → Res Bool) (l : List α)
    (h : anyRes p l = .val false) : ∀ x ∈ l, p x = .val false := by
  induction l with
  | nil => simp
  | cons x xs ih =>
    unfold anyRes at h
    intro y hy
    cases hp : p x with
    | val b =>
      cases b
      · rw [hp] at h
        rcases List.mem_cons.mp hy with rfl | hmem
        · exact hp
        · exact ih h y hmem
      · rw [hp] at h; cases h
    | attrErr s => rw [hp] at h; cases h
    | typeErr => rw [hp] at h; cases h
    | fuelOut => rw [hp] at h; cases h

/-- C4: counterexample — in `g4`, node 2 has no previous versions, and
its only incompatible predecessor (node 1) IS expired, so the claim
("coming soon iff some previous version is coming soon or some
incompatible predecessor is not expired") predicts `coming_soon` is
`False`; the code returns `True`, because node 1's overridden
`deprecated()` (expired AND not coming soon) is `False` — node 1 is
itself coming soon. -/
theorem coming_soon_counterexample :
    GraphAsyncVersion.coming_soon g4 10 2 = .val true ∧
    (g4.node 2).prev = [] ∧
    (g4.node 2).incompat = [1] ∧
    is_deprecated_time g4.now ((g4.node 1).deprecated_at) = true :=
  ⟨by decide, by decide, by decide, by decide⟩

/-- C4: amended — `coming_soon` is `True` iff some previous version is
coming soon or some incompatible previous version is not `deprecated()`
in the graph-node sense (expired AND not coming soon), rather than "not
expired" as the claim stated. -/
theorem coming_soon_characterisation (g : Graph) (fuel i : Nat) (b : Bool)
    (h : GraphAsyncVersion.coming_soon g (fuel + 1) i = .val b) :
    b = true ↔
      (∃ j ∈ (g.node i).prev, GraphAsyncVersion.coming_soon g fuel j = .val true) ∨
      (∃ j ∈ (g.node i).incompat, GraphAsyncVersion.deprecated g fuel j = .val false) := by
  unfold GraphAsyncVersion.coming_soon at h
  cases hp : anyRes (fun j => GraphAsyncVersion.coming_soon g fuel j) ((g.node i).prev) with
  | val bp =>
    cases bp
    · rw [hp] at h
      cases b
      · simp only [Bool.false_eq_true, false_iff]
        intro hcon
        rcases hcon with ⟨j, hj, hjt⟩ | ⟨j, hj, hjf⟩
        · have := anyRes_val_false _ _ hp j hj
          rw [this] at hjt; cases hjt
        · have := anyRes_val_false _ _ h j hj
          rw [Res.neg_eq_false] at this
          rw [this] at hjf; cases hjf
      · simp only [true_iff]
        right
        obtain ⟨j, hj, hjt⟩ := anyRes_val_true _ _ h
        exact ⟨j, hj, Res.neg_eq_true.mp hjt⟩
    · rw [hp] at h
      cases h
      simp only [true_iff]
      left
      exact anyRes_val_true _ _ hp
  | attrErr s => rw [hp] at h; cases h
  | typeErr => rw [hp] at h; cases h
  | fuelOut => rw [hp] at h; cases h

/-- Witness for C4's amended characterisation, instantiated on `g4` at
node 2 with `b = true`: the incompatible predecessor 1 is not
`deprecated()`. -/
theorem coming_soon_characterisation_witness :
    GraphAsyncVersion.coming_soon g4 10 2 = .val true ∧
    ((true = true) ↔
      (∃ j ∈ (g4.node 2).prev, GraphAsyncVersion.coming_soon g4 9 j = .val true) ∨
      (∃ j ∈ (g4.node 2).incompat, GraphAsyncVersion.deprecated g4 9 j = .val false)) :=
  ⟨by decide, coming_soon_characterisation g4 9 2 true (by decide)⟩

/-- A redirect chain A(0) → B(1) → C(2) in which only C's owning version
is available: versions 0 and 1 are expired, version 2 is clean. -/
def w6 : World :=
  ⟨⟨0, [⟨some (-1), [], [], ("1.0.0"), none⟩,
        ⟨some (-1), [], [], ("2.0.0"), none⟩,
        ⟨none, [], [], ("3.0.0"), none⟩]⟩,
   [⟨none, 0, none, none, false, some 1⟩,
    ⟨none, 1, none, none, false, some 2⟩,
    ⟨none, 2, none, none, false, none⟩], []⟩

/-- C6: counterexample — in `w6` (A → B → C with only C's version
available) `last_available_update(A)` returns `None`, not C: the guard
`if not self.available` fires because A is unavailable (indeed the
`available` property is constantly `False`). -/
theorem last_available_update_chain_counterexample :
    (w6.api 0).new_compatible_view = some 1 ∧
    (w6.api 1).new_compatible_view = some 2 ∧
    (w6.api 2).new_compatible_view = none ∧
    GraphAsyncVersion.available w6.graph 10 ((w6.api 2).web_version) = .val true ∧
    GraphAsyncVersion.available w6.graph 10 ((w6.api 0).web_version) = .val false ∧
    GraphAsyncVersion.available w6.graph 10 ((w6.api 1).web_version) = .val false ∧
    WebAPI.last_available_update w6 10 0 = .val none ∧
    Res.val (none : Option Nat) ≠ Res.val (some 2) :=
  ⟨by decide, by decide, by decide, by decide, by decide, by decide, by decide, by decide⟩

/-- A chain A(0) → B(1) → C(2) where B's owning version (1) is clean and
available but C's owning version (2) is expired and unavailable. -/
def w8 : World :=
  ⟨⟨0, [⟨none, [], [], ("1.0.0"), none⟩,
        ⟨none, [], [], ("2.0.0"), none⟩,
        ⟨some (-1), [], [], ("3.0.0"), none⟩]⟩,
   [⟨none, 0, none, none, false, some 1⟩,
    ⟨none, 1, none, none, false, some 2⟩,
    ⟨none, 2, none, none, false, none⟩], []⟩

/-- C8: counterexample — in `w8` the successor C (record 2) sits behind
an unavailable version, yet `available_updates(A)` returns the whole
chain `[B, C]` instead of stopping before the unavailable hop as the
claim requires. -/
theorem available_updates_counterexample :
    (w8.api 0).new_compatible_view = some 1 ∧
    (w8.api 1).new_compatible_view = some 2 ∧
    GraphAsyncVersion.available w8.graph 10 ((w8.api 1).web_version) = .val true ∧
    GraphAsyncVersion.available w8.graph 10 ((w8.api 2).web_version) = .val false ∧
    WebAPI.available_updates w8 10 0 = .val [1, 2] :=
  ⟨by decide, by decide, by decide, by decide, by decide⟩

/-- C8: amended — `available_updates()` consults availability only for
the FIRST successor: with no successor, or a first successor behind an
unavailable version, it returns `[]`; with an available first successor
it returns that successor followed by its entire unfiltered `updates()`
chain. -/
theorem available_updates_first_hop_only (w : World) (fuel i : Nat) :
    (∀ j, (w.api i).new_compatible_view = some j →
      GraphAsyncVersion.available w.graph fuel ((w.api j).web_version) = .val false →
      WebAPI.available_updates w fuel i = .val []) ∧
    (∀ j l, (w.api i).new_compatible_view = some j →
      GraphAsyncVersion.available w.graph fuel ((w.api j).web_version) = .val true →
      WebAPI.updates w fuel j = .val l →
      WebAPI.available_updates w fuel i = .val (j :: l)) := by
  constructor
  · intro j hj hav
    simp [WebAPI.available_updates, hj, hav]
  · intro j l hj hav hu
    simp [WebAPI.available_updates, hj, hav, hu, Res.map]

/-- Witness for C8's amended statement on `w8`: the first hop is
available, so the full chain `[1, 2]` comes back unfiltered. -/
theorem available_updates_first_hop_only_witness :
    (w8.api 0).new_compatible_view = some 1 ∧
    WebAPI.updates w8 10 1 = .val [2] ∧
    WebAPI.available_updates w8 10 0 = .val [1, 2] :=
  ⟨by decide, by decide,
   (available_updates_first_hop_only w8 10 0).2 1 [2] (by decide) (by decide) (by decide)⟩

/-- A world with one clean version whose `api_prefix` is unset and one
API endpoint record with a relative `view_url` only. -/
def w10 : World :=
  ⟨⟨0, [⟨none, [], [], ("1.0.0"), none⟩]⟩,
   [⟨none, 0, some ("users/"), none, true, none⟩], []⟩

/-- C10: counterexample — with no absolute URL, a relative `view_url`,
`is_api` set and no `api_prefix`, `get_complete_prefix` returns `None`
and the `None + view_url` concatenation in the `url` property raises
`TypeError`; the property is not total. -/
theorem url_type_error_counterexample :
    (w10.api 0).absolute_view_url = none ∧
    (w10.api 0).view_url = some ("users/") ∧
    (w10.api 0).is_api = true ∧
    WebVersion.api_prefix (w10.graph.node ((w10.api 0).web_version)) = none ∧
    WebAPI.url w10 0 = Res.typeErr :=
  ⟨by decide, by decide, by decide, by decide, by decide⟩

/-- C10: amended — evaluating `url` raises `TypeError` exactly in the
configuration the claim singles out (no absolute URL, a relative URL,
an API view, no `api_prefix`); in every other configuration it returns
a string or `None`. -/
theorem url_type_error_characterisation (w : World) (i : Nat) :
    WebAPI.url w i = Res.typeErr ↔
      ((w.api i).absolute_view_url = none ∧ (w.api i).view_url ≠ none ∧
       (w.api i).is_api = true ∧
       WebVersion.api_prefix (w.graph.node ((w.api i).web_version)) = none) := by
  unfold WebAPI.url WebVersion.get_complete_prefix
  cases habs : (w.api i).absolute_view_url with
  | some u => simp [habs]
  | none =>
    cases hvu : (w.api i).view_url with
    | none => simp [hvu]
    | some vu =>
      cases hapi : (w.api i).is_api with
      | false => simp [hvu, hapi]
      | true =>
        cases hpre : WebVersion.api_prefix (w.graph.node ((w.api i).web_version)) with
        | none => simp [hvu, hapi, hpre]
        | some p => simp [hvu, hapi, hpre]

/-- Canonical decimal numeral: nonempty, digits only, no leading zero
except the numeral 0 itself. -/
def canonicalComponent : List Char → Bool
  | [] => false
  | c :: t => (c :: t).all Char.isDigit && (c != '0' || t.isEmpty)

/-- Every character of a canonical numeral is a digit. -/
theorem canon_digits {s : List Char} (h : canonicalComponent s = true) :
    ∀ c ∈ s, c.isDigit = true := by
  cases s with
  | nil => simp
  | cons c t =>
    simp only [canonicalComponent, Bool.and_eq_true] at h
    exact List.all_eq_true.mp h.1

/-- A canonical numeral is nonempty. -/
theorem canon_ne_nil {s : List Char} (h : canonicalComponent s = true) : s ≠ [] := by
  cases s with
  | nil => cases h
  | cons c t => simp

/-- A canonical numeral is either the numeral 0 or starts with a
nonzero digit. -/
theorem canon_shape {s : List Char} (h : canonicalComponent s = true) :
    s = ['0'] ∨ ∃ c t, s = c :: t ∧ c ≠ '0' ∧ c.isDigit = true := by
  cases s with
  | nil => cases h
  | cons c t =>
    by_cases hc : c = '0'
    · subst hc
      simp only [canonicalComponent, Bool.and_eq_true, Bool.or_eq_true] at h
      rcases h.2 with h2 | h2
      · simp [bne] at h2
      · cases t with
        | nil => exact Or.inl rfl
        | cons x xs => simp at h2
    · right
      exact ⟨c, t, rfl, hc, canon_digits h c (List.mem_cons_self c t)⟩

/-- Scanning an all-true block followed by a failing head keeps exactly
the block. -/
theorem takeWhile_append_eq (p : Char → Bool) (xs ys : List Char)
    (hxs : ∀ x ∈ xs, p x = true) (hys : ys.takeWhile p = []) :
    (xs ++ ys).takeWhile p = xs := by
  induction xs with
  | nil => simpa using hys
  | cons x t ih =>
    have hx : p x = true := hxs x (List.mem_cons_self x t)
    simp only [List.cons_append, List.takeWhile_cons, hx, if_true]
    rw [ih (fun y hy => hxs y (List.mem_cons_of_mem x hy))]

/-- A digit character is not the dot. -/
theorem digit_bne_dot {c : Char} (h : c.isDigit = true) : (c != '.') = true := by
  rcases eq_or_ne c '.' with rfl | hne
  · exact absurd h (by decide)
  · simp [bne_iff_ne, hne]

/-- The numeral 0 is a prefix of a canonical numeral only for the
numeral 0 itself. -/
theorem zero_prefix_canon {s : List Char} (h : canonicalComponent s = true) :
    List.isPrefixOf ['0'] s = true ↔ s = ['0'] := by
  rcases canon_shape h with rfl | ⟨c, t, rfl, hc, hcd⟩
  · simp [List.isPrefixOf]
  · simp [List.isPrefixOf, beq_iff_eq, hc, Ne.symm hc]

/-- Reading "0.0" at the start of `sy ++ "." ++ sz` forces both
canonical numerals to be 0. -/
theorem zero_dot_zero_prefix_canon {sy sz : List Char}
    (hy : canonicalComponent sy = true) (hz : canonicalComponent sz = true) :
    List.isPrefixOf ['0', '.', '0'] (sy ++ '.' :: sz) = true ↔ (sy = ['0'] ∧ sz = ['0']) := by
  rcases canon_shape hy with rfl | ⟨c, t, rfl, hc, hcd⟩
  · simp [List.isPrefixOf, zero_prefix_canon hz]
  · simp [List.isPrefixOf, beq_iff_eq, hc, Ne.symm hc]

/-- C7: counterexample — the claim (and the spec's example) says
`"2.3.0"` maps to `"v3"`; the code's sub-version branch keeps what
follows the LAST dot (`rpartition('.')[-1]`), producing `"v0"`. -/
theorem get_version_uri_sub_counterexample :
    WebVersion.get_version_uri ("2.3.0") = ("v0") ∧
    WebVersion.get_version_uri ("2.3.0") ≠ ("v3") :=
  ⟨by decide, by decide⟩

/-- C7: amended — for a canonical version string `X.Y.Z`: when
`Y = 0` and `Z = 0` the segment is `vX`; when only `Z = 0` it is `v0`
(the character after the last dot), not `v` + the middle component; and
otherwise it is the full string prefixed with `v`. -/
theorem get_version_uri_characterisation (sx sy sz : List Char)
    (hx : canonicalComponent sx = true) (hy : canonicalComponent sy = true)
    (hz : canonicalComponent sz = true) :
    WebVersion.get_version_uri (String.mk (sx ++ '.' :: (sy ++ '.' :: sz))) =
      if sy = ['0'] ∧ sz = ['0'] then ("v") ++ String.mk sx
      else if sz = ['0'] then ("v0")
      else ("v") ++ String.mk (sx ++ '.' :: (sy ++ '.' :: sz)) := by
  have hdx : ∀ c ∈ sx, Char.isDigit c = true := canon_digits hx
  have hdy : ∀ c ∈ sy, Char.isDigit c = true := canon_digits hy
  have hdz : ∀ c ∈ sz, Char.isDigit c = true := canon_digits hz
  have hdot : Char.isDigit '.' = false := by decide
  have hdotb : ('.' != '.') = false := by decide
  have hxe : sx.isEmpty = false := by
    cases hc : sx with
    | nil => exact absurd hc (canon_ne_nil hx)
    | cons a t => rfl
  have hye : sy.isEmpty = false := by
    cases hc : sy with
    | nil => exact absurd hc (canon_ne_nil hy)
    | cons a t => rfl
  have htl : (String.mk (sx ++ '.' :: (sy ++ '.' :: sz))).toList
      = sx ++ '.' :: (sy ++ '.' :: sz) := rfl
  have htw1 : (sx ++ '.' :: (sy ++ '.' :: sz)).takeWhile Char.isDigit = sx :=
    takeWhile_append_eq _ _ _ hdx (by simp [List.takeWhile_cons, hdot])
  have hdr1 : (sx ++ '.' :: (sy ++ '.' :: sz)).drop sx.length = '.' :: (sy ++ '.' :: sz) :=
    List.drop_left sx _
  have htw2 : (sy ++ '.' :: sz).takeWhile Char.isDigit = sy :=
    takeWhile_append_eq _ _ _ hdy (by simp [List.takeWhile_cons, hdot])
  have hdr2 : (sy ++ '.' :: sz).drop sy.length = '.' :: sz := List.drop_left sy _
  have hbd : partBeforeDot (sx ++ '.' :: (sy ++ '.' :: sz)) = sx := by
    unfold partBeforeDot
    exact takeWhile_append_eq _ _ _ (fun c hc => digit_bne_dot (hdx c hc))
      (by simp [List.takeWhile_cons, hdotb])
  have had : partAfterLastDot (sx ++ '.' :: (sy ++ '.' :: sz)) = sz := by
    unfold partAfterLastDot
    have hrev : (sx ++ '.' :: (sy ++ '.' :: sz)).reverse
        = sz.reverse ++ '.' :: (sy.reverse ++ '.' :: sx.reverse) := by
      simp
    rw [hrev, takeWhile_append_eq _ _ _
      (fun c hc => digit_bne_dot (hdz c (List.mem_reverse.mp hc)))
      (by simp [List.takeWhile_cons, hdotb])]
    exact List.reverse_reverse sz
  have hmain : matchMainL (sx ++ '.' :: (sy ++ '.' :: sz))
      = List.isPrefixOf ['0', '.', '0'] (sy ++ '.' :: sz) := by
    simp only [matchMainL, htw1, hdr1, hxe, Bool.not_false, Bool.true_and]
    simp [List.isPrefixOf]
  have hsub : matchSubL (sx ++ '.' :: (sy ++ '.' :: sz))
      = List.isPrefixOf ['0'] sz := by
    simp only [matchSubL, htw1, hdr1, htw2, hdr2, hxe, hye,
      Bool.not_false, Bool.true_and]
    simp [List.isPrefixOf]
  by_cases h2 : sz = ['0']
  · by_cases h1 : sy = ['0']
    · have hm : matchMainL (sx ++ '.' :: (sy ++ '.' :: sz)) = true := by
        rw [hmain]
        exact (zero_dot_zero_prefix_canon hy hz).mpr ⟨h1, h2⟩
      simp only [WebVersion.get_version_uri, htl, hm, if_true, hbd]
      rw [if_pos ⟨h1, h2⟩]
    · have hmf : matchMainL (sx ++ '.' :: (sy ++ '.' :: sz)) = false := by
        rw [hmain]
        cases hb : List.isPrefixOf ['0', '.', '0'] (sy ++ '.' :: sz) with
        | false => rfl
        | true => exact absurd ((zero_dot_zero_prefix_canon hy hz).mp hb).1 h1
      have hsf : matchSubL (sx ++ '.' :: (sy ++ '.' :: sz)) = true := by
        rw [hsub]
        exact (zero_prefix_canon hz).mpr h2
      simp only [WebVersion.get_version_uri, htl, hmf, hsf, if_true, Bool.false_eq_true,
        if_false, had]
      rw [if_neg (fun hh => h1 hh.1), if_pos h2, h2]
      decide
  · have hmf : matchMainL (sx ++ '.' :: (sy ++ '.' :: sz)) = false := by
      rw [hmain]
      cases hb : List.isPrefixOf ['0', '.', '0'] (sy ++ '.' :: sz) with
      | false => rfl
      | true => exact absurd ((zero_dot_zero_prefix_canon hy hz).mp hb).2 h2
    have hsf : matchSubL (sx ++ '.' :: (sy ++ '.' :: sz)) = false := by
      rw [hsub]
      cases hb : List.isPrefixOf ['0'] sz with
      | false => rfl
      | true => exact absurd ((zero_prefix_canon hz).mp hb) h2
    simp only [WebVersion.get_version_uri, htl, hmf, hsf, Bool.false_eq_true, if_false,
      ite_self]
    rw [if_neg (fun hh => h2 hh.2), if_neg h2]

/-- Witness for C7's amended statement at the components 2, 3, 0: the
segment is `v0`. -/
theorem get_version_uri_characterisation_witness :
    canonicalComponent ['2'] = true ∧ canonicalComponent ['3'] = true ∧
    canonicalComponent ['0'] = true ∧
    WebVersion.get_version_uri (String.mk (['2'] ++ '.' :: (['3'] ++ '.' :: ['0']))) =
      (if (['3'] : List Char) = ['0'] ∧ (['0'] : List Char) = ['0']
        then ("v") ++ String.mk ['2']
       else if (['0'] : List Char) = ['0'] then ("v0")
       else ("v") ++ String.mk (['2'] ++ '.' :: (['3'] ++ '.' :: ['0']))) :=
  ⟨by decide, by decide, by decide,
   get_version_uri_characterisation ['2'] ['3'] ['0'] (by decide) (by decide) (by decide)⟩
